import Mathlib

/-!
Verification of the settings reverse walk of pages/2_Settings_Editor.py.

The document model is the JSON-like value fetched from the backend
(ConfigValue below).  The edit store st.session_state is modelled as a
partial map from widget key (the underscore-joined key path) to a
Python-like value; since every value the page ever stores there is
JSON-shaped, the same ConfigValue type is used for stored values.

Python builtins used by the source (bool, int, float, str, str.strip,
str.splitlines, str.isdigit) are modelled below.  Floats are modelled as
exact rationals: none of the verified properties depends on binary
floating-point rounding, only on the identities float(float x) = x,
int-of-float truncation and determinism of the conversions.
pyyaml.safe_load is a third-party library function; it is passed to the
walk as an explicit parameter yload (raising = none), applied only to
strings, mirroring that calling it on a non-string raises.
-/

namespace NLBot

/-- JSON-like configuration document, mirroring the Python values the
Settings Editor page manipulates (dicts keep insertion order, modelled
as association lists). -/
inductive ConfigValue where
  | null
  | bool (b : Bool)
  | int (n : Int)
  | float (q : Rat)
  | str (s : String)
  | list (items : List ConfigValue)
  | map (entries : List (String × ConfigValue))

/-- Is the value a Python dict. -/
def ConfigValue.isMap : ConfigValue → Bool
  | .map _ => true
  | _ => false

/-- Python truthiness of a JSON-shaped value. -/
def pyTruthy : ConfigValue → Bool
  | .null => false
  | .bool b => b
  | .int n => n != 0
  | .float q => q != 0
  | .str s => !s.isEmpty
  | .list items => !items.isEmpty
  | .map es => !es.isEmpty

/-- Whitespace characters removed by str.strip (ASCII subset). -/
def pyWs (c : Char) : Bool :=
  c == ' ' || c == '\t' || c == '\n' || c == '\r' || c == '\x0b' || c == '\x0c'

/-- Model of str.strip(). -/
def pyStrip (s : String) : String :=
  String.mk (((s.data.dropWhile pyWs).reverse.dropWhile pyWs).reverse)

/-- Helper for pySplitlines: accumulates the current line in reverse. -/
def splitlinesAux : List Char → List Char → List String
  | [], acc => if acc.isEmpty then [] else [String.mk acc.reverse]
  | '\r' :: '\n' :: rest, acc => String.mk acc.reverse :: splitlinesAux rest []
  | '\n' :: rest, acc => String.mk acc.reverse :: splitlinesAux rest []
  | '\r' :: rest, acc => String.mk acc.reverse :: splitlinesAux rest []
  | c :: rest, acc => splitlinesAux rest (c :: acc)

/-- Model of str.splitlines() for the line breaks LF, CRLF and CR (the
texts handled by the page contain only these). -/
def pySplitlines (s : String) : List String :=
  splitlinesAux s.data []

/-- Model of str.isdigit() over ASCII: nonempty and all decimal digits. -/
def isdigitStr (s : String) : Bool :=
  !s.isEmpty && s.data.all Char.isDigit

/-- Numeric value of a digit string, ignoring underscores. -/
def digitsToNat (cs : List Char) : Nat :=
  cs.foldl (fun a c => if c == '_' then a else a * 10 + (c.toNat - 48)) 0

/-- Rest of the digit part accepted by int() after the first digit:
digits with single underscores strictly between digits. -/
def intDigitsRest : List Char → Bool
  | [] => true
  | '_' :: [] => false
  | '_' :: c :: rest => c.isDigit && intDigitsRest rest
  | c :: rest => c.isDigit && intDigitsRest rest

/-- Validity of the digit part accepted by int(). -/
def intDigitsValid : List Char → Bool
  | [] => false
  | c :: rest => c.isDigit && intDigitsRest rest

/-- Model of int() applied to a string: strip, optional sign, decimal
digits (with underscores between digits); none models a raised
ValueError. -/
def parseIntPy (s : String) : Option Int :=
  let t := (pyStrip s).data
  let sgr : Int × List Char :=
    match t with
    | '+' :: r => (1, r)
    | '-' :: r => (-1, r)
    | r => (1, r)
  if intDigitsValid sgr.2 then some (sgr.1 * (digitsToNat sgr.2 : Int)) else none

/-- Signed digit string of a float exponent. -/
def parseFloatExpDigits (mant : Rat) (r : List Char) : Option Rat :=
  let sgr : Int × List Char :=
    match r with
    | '+' :: rr => (1, rr)
    | '-' :: rr => (-1, rr)
    | rr => (1, rr)
  if sgr.2.isEmpty || !sgr.2.all Char.isDigit then none
  else
    let k := digitsToNat sgr.2
    some (if 0 ≤ sgr.1 then mant * (10 : Rat) ^ k else mant / (10 : Rat) ^ k)

/-- Exponent part of a float literal, applied to the mantissa. -/
def parseFloatExp (mant : Rat) (rest : List Char) : Option Rat :=
  match rest with
  | [] => some mant
  | 'e' :: r => parseFloatExpDigits mant r
  | 'E' :: r => parseFloatExpDigits mant r
  | _ => none

/-- Model of float() applied to a string: strip, optional sign, decimal
mantissa with optional point and optional exponent.  The special float
texts inf and nan have no exact-rational counterpart and are treated as
unparseable; no verified property involves them. -/
def parseFloatPy (s : String) : Option Rat :=
  let t := (pyStrip s).data
  let sgr : Int × List Char :=
    match t with
    | '+' :: r => (1, r)
    | '-' :: r => (-1, r)
    | r => (1, r)
  let ipart := sgr.2.takeWhile Char.isDigit
  let r2 := sgr.2.dropWhile Char.isDigit
  match r2 with
  | '.' :: r3 =>
      let fpart := r3.takeWhile Char.isDigit
      let r4 := r3.dropWhile Char.isDigit
      if ipart.isEmpty && fpart.isEmpty then none
      else
        parseFloatExp
          ((sgr.1 * (digitsToNat (ipart ++ fpart) : Int) : Rat) / (10 : Rat) ^ fpart.length)
          r4
  | _ =>
      if ipart.isEmpty then none
      else parseFloatExp ((sgr.1 * (digitsToNat ipart : Int) : Rat)) r2

/-- Truncation toward zero, the behaviour of int() on a float. -/
def ratTrunc (q : Rat) : Int :=
  if 0 ≤ q then q.floor else -((-q).floor)

/-- Model of int() on the values a widget can hold; none models a raised
TypeError or ValueError. -/
def pyInt : ConfigValue → Option Int
  | .bool b => some (if b then 1 else 0)
  | .int n => some n
  | .float q => some (ratTrunc q)
  | .str s => parseIntPy s
  | _ => none

/-- Model of float() on the values a widget can hold. -/
def pyFloat : ConfigValue → Option Rat
  | .bool b => some (if b then 1 else 0)
  | .int n => some (n : Rat)
  | .float q => some q
  | .str s => parseFloatPy s
  | _ => none

/-- The apostrophe character, used by the Python repr of strings. -/
def pyQuote : Char := Char.ofNat 39

/-- Escaping of one character inside a Python single-quoted repr
(backslash and quote; other escapes are not needed by any property). -/
def escapeChar (c : Char) : String :=
  if c == '\\' then "\\\\"
  else if c == pyQuote then "\\" ++ String.singleton pyQuote
  else String.singleton c

/-- Body of the Python repr of a string. -/
def escapeStr (s : String) : String :=
  String.join (s.data.map escapeChar)

/-- Fractional decimal digits of rem / den, up to the given fuel. -/
def floatFracDigits : Nat → Nat → Nat → List Char
  | 0, _, _ => []
  | fuel + 1, rem, den =>
      if rem == 0 then []
      else Char.ofNat (48 + rem * 10 / den) :: floatFracDigits fuel (rem * 10 % den) den

/-- Decimal text of a float value.  The source only ever feeds such text
back through parsers whose behaviour the properties fix independently,
so over the exact-rational float model a plain decimal expansion (17
fractional digits at most, as for f64 repr) is used; every verified
property needs only that this function is a fixed total function. -/
def floatRepr (q : Rat) : String :=
  let sign := if q < 0 then "-" else ""
  let n := q.num.natAbs
  let d := q.den
  let frac := if n % d == 0 then "0" else String.mk (floatFracDigits 17 (n % d) d)
  sign ++ toString (n / d) ++ "." ++ frac

mutual

/-- Model of Python repr on JSON-shaped values. -/
def pyRepr : ConfigValue → String
  | .null => "None"
  | .bool b => if b then "True" else "False"
  | .int n => toString n
  | .float q => floatRepr q
  | .str s => String.singleton pyQuote ++ escapeStr s ++ String.singleton pyQuote
  | .list items => "[" ++ pyReprList items ++ "]"
  | .map es => "\x7b" ++ pyReprEntries es ++ "\x7d"

/-- Comma-separated reprs of list items. -/
def pyReprList : List ConfigValue → String
  | [] => ""
  | [v] => pyRepr v
  | v :: rest => pyRepr v ++ ", " ++ pyReprList rest

/-- Comma-separated redered entries of a dict repr. -/
def pyReprEntries : List (String × ConfigValue) → String
  | [] => ""
  | [(k, v)] =>
      String.singleton pyQuote ++ escapeStr k ++ String.singleton pyQuote ++ ": " ++ pyRepr v
  | (k, v) :: rest =>
      String.singleton pyQuote ++ escapeStr k ++ String.singleton pyQuote ++ ": " ++ pyRepr v
        ++ ", " ++ pyReprEntries rest

end

/-- Model of str() on JSON-shaped values: identity on strings, repr on
everything else. -/
def pyStr : ConfigValue → String
  | .str s => s
  | v => pyRepr v

/-- The list literal of line 152: keys whose list is parsed back as one
string per line. -/
def simpleListKeys : List String :=
  ["sender_email", "ad_identifiers", "regular_engagement_skip_senders"]

/-- The list literal of line 115: keys rendered as an editable one-item-
per-line text area by render_setting. -/
def textareaListKeys : List String :=
  ["sender_email", "ad_identifiers", "regular_engagement_skip_senders", "serial_numbers"]

/-- The module-level flag: the environment under verification has PyYAML
importable, so the flag is true. -/
def PYYAML_AVAILABLE : Bool := true

/-- Is the value a Python list. -/
def ConfigValue.isList : ConfigValue → Bool
  | .list _ => true
  | _ => false

/-- The comprehension of line 152: strip each line, drop falsy (empty)
stripped lines, keep the rest as strings. -/
def parseStringLines (ls : List String) : List ConfigValue :=
  ls.filterMap (fun line =>
    let t := pyStrip line
    if t.isEmpty then none else some (ConfigValue.str t))

/-- The comprehension of line 153: keep lines whose stripped text passes
isdigit, parsing each kept line with int().  int() cannot fail on an
all-ASCII-digit string, so the parse is threaded through filterMap. -/
def parseSerialLines (ls : List String) : List ConfigValue :=
  ls.filterMap (fun line =>
    let t := pyStrip line
    if isdigitStr t then (parseIntPy t).map ConfigValue.int else none)

/-- splitlines() on a widget value: raises (none) unless it is a str. -/
def pySplitlinesVal : ConfigValue → Option (List String)
  | .str s => some (pySplitlines s)
  | _ => none

/-- The body of the try block at lines 148 to 158 of the source: given
the terminal key, the original leaf value and the widget value, produce
the coerced value; none models a raised exception (caught at line 159,
where the original value is kept and a warning is surfaced).  The
branches mirror the source order: bool, int, float original; the three
list branches keyed on the terminal key; the group_id branch; the str
original branch; and the fallback that assigns the widget value. -/
def applyEdit (yload : String → Option ConfigValue) (k : String) (ov w : ConfigValue) :
    Option ConfigValue :=
  match ov with
  | .bool _ => some (.bool (pyTruthy w))
  | .int _ => (pyInt w).map .int
  | .float _ => (pyFloat w).map .float
  | .list items =>
      if k ∈ simpleListKeys then
        (pySplitlinesVal w).map (fun ls => .list (parseStringLines ls))
      else if k = "serial_numbers" then
        (pySplitlinesVal w).map (fun ls => .list (parseSerialLines ls))
      else if k = "session_types" ∧ PYYAML_AVAILABLE = true then
        match w with
        | .str s =>
            match yload s with
            | some p => some (if p.isList then p else .list items)
            | none => none
        | _ => none
      else if k = "group_id" then some (if pyTruthy w then w else .null)
      else some w
  | .str _ =>
      if k = "group_id" then some (if pyTruthy w then w else .null)
      else some (.str (pyStr w))
  | .null =>
      if k = "group_id" then some (if pyTruthy w then w else .null)
      else some w
  | .map _ =>
      if k = "group_id" then some (if pyTruthy w then w else .null)
      else some w

/-- The widget key of line 145: underscore-join of the key path. -/
def joinKey (path : List String) : String :=
  String.intercalate "_" path

mutual

/-- Model of build_updated_settings (lines 136 to 165).  yload is the
external pyyaml.safe_load on strings (none models a raised parse
error); sess is st.session_state viewed as a partial map from widget
key to stored value.  Returns the rebuilt value together with the list
of widget keys whose coercion raised, in walk order (each such key is
reported to the operator by st.warning at line 160). -/
def build_updated_settings (yload sess : String → Option ConfigValue) :
    List String → ConfigValue → ConfigValue × List String
  | keyPath, .map entries =>
      let r := buildEntries yload sess keyPath entries
      (.map r.1, r.2)
  | _, v => (v, [])

/-- The per-key loop of build_updated_settings over dict entries. -/
def buildEntries (yload sess : String → Option ConfigValue) :
    List String → List (String × ConfigValue) → List (String × ConfigValue) × List String
  | _, [] => ([], [])
  | keyPath, (k, ov) :: rest =>
      let cur := keyPath ++ [k]
      let r : ConfigValue × List String :=
        match ov with
        | .map es => build_updated_settings yload sess cur (.map es)
        | _ =>
            match sess (joinKey cur) with
            | some w =>
                match applyEdit yload k ov w with
                | some v => (v, [])
                | none => (ov, [joinKey cur])
            | none => (ov, [])
      let r2 := buildEntries yload sess keyPath rest
      ((k, r.1) :: r2.1, r.2 ++ r2.2)

end

/-- The document produced by the reverse walk started at the root, as at
line 229 of the source. -/
def applyFields (yload sess : String → Option ConfigValue) (T : ConfigValue) : ConfigValue :=
  (build_updated_settings yload sess [] T).1

/-- Dict lookup on an entry list (first match, as a Python dict has
unique keys). -/
def lookupEntry (k : String) : List (String × ConfigValue) → Option ConfigValue
  | [] => none
  | (k2, v) :: rest => if k2 = k then some v else lookupEntry k rest

/-- Path-addressed access: descend through dict keys. -/
def getAtPath : ConfigValue → List String → Option ConfigValue
  | v, [] => some v
  | .map es, k :: rest =>
      match lookupEntry k es with
      | some v => getAtPath v rest
      | none => none
  | _, _ :: _ => none

mutual

/-- The bound leaves of a document below a base path: every non-dict
value reached by recursing through dicts, with its full path and its
terminal key.  These are exactly the positions at which the reverse
walk consults the edit store. -/
def leaves : List String → ConfigValue → List (List String × String × ConfigValue)
  | base, .map es => leavesEntries base es
  | _, _ => []

/-- Leaves of a list of dict entries. -/
def leavesEntries : List String → List (String × ConfigValue) →
    List (List String × String × ConfigValue)
  | _, [] => []
  | base, (k, ov) :: rest =>
      (match ov with
       | .map es2 => leaves (base ++ [k]) (.map es2)
       | _ => [(base ++ [k], k, ov)]) ++ leavesEntries base rest

end

/-- Is the value a Python bool. -/
def ConfigValue.isBool : ConfigValue → Bool
  | .bool _ => true
  | _ => false

/-- Is the value a Python int. -/
def ConfigValue.isInt : ConfigValue → Bool
  | .int _ => true
  | _ => false

/-- Is the value a Python float. -/
def ConfigValue.isFloat : ConfigValue → Bool
  | .float _ => true
  | _ => false

/-- How the walk treats one bound leaf: consult the edit store at the
widget key; apply the coercion when a value is present, keeping the
original and recording a warning when the coercion raises. -/
def leafOut (yload sess : String → Option ConfigValue) (cur : List String) (k : String)
    (ov : ConfigValue) : ConfigValue × List String :=
  match sess (joinKey cur) with
  | some w =>
      match applyEdit yload k ov w with
      | some v => (v, [])
      | none => (ov, [joinKey cur])
  | none => (ov, [])

/-- How the walk treats one dict entry: recurse on dict values, leaf
handling otherwise. -/
def entryOut (yload sess : String → Option ConfigValue) (keyPath : List String) (k : String)
    (ov : ConfigValue) : ConfigValue × List String :=
  match ov with
  | .map _ => build_updated_settings yload sess (keyPath ++ [k]) ov
  | _ => leafOut yload sess (keyPath ++ [k]) k ov

theorem build_map (yload sess : String → Option ConfigValue) (p : List String)
    (es : List (String × ConfigValue)) :
    build_updated_settings yload sess p (.map es)
      = (.map (buildEntries yload sess p es).1, (buildEntries yload sess p es).2) := by
  simp [build_updated_settings]

theorem build_nonmap (yload sess : String → Option ConfigValue) (p : List String)
    (v : ConfigValue) (h : v.isMap = false) :
    build_updated_settings yload sess p v = (v, []) := by
  cases v <;> simp_all [build_updated_settings, ConfigValue.isMap]

theorem buildEntries_nil (yload sess : String → Option ConfigValue) (p : List String) :
    buildEntries yload sess p [] = ([], []) := by
  simp [buildEntries]

theorem buildEntries_cons (yload sess : String → Option ConfigValue) (p : List String)
    (k : String) (ov : ConfigValue) (rest : List (String × ConfigValue)) :
    buildEntries yload sess p ((k, ov) :: rest)
      = ((k, (entryOut yload sess p k ov).1) :: (buildEntries yload sess p rest).1,
         (entryOut yload sess p k ov).2 ++ (buildEntries yload sess p rest).2) := by
  cases ov <;> simp [buildEntries, entryOut, leafOut]

theorem buildEntries_fst_eq (yload sess : String → Option ConfigValue) (p : List String)
    (es : List (String × ConfigValue)) :
    (buildEntries yload sess p es).1
      = es.map (fun q => (q.1, (entryOut yload sess p q.1 q.2).1)) := by
  induction es with
  | nil => simp [buildEntries_nil]
  | cons hd tl ih => rw [show hd = (hd.1, hd.2) from rfl, buildEntries_cons]; simp [ih]

theorem buildEntries_snd_eq (yload sess : String → Option ConfigValue) (p : List String)
    (es : List (String × ConfigValue)) :
    (buildEntries yload sess p es).2
      = es.flatMap (fun q => (entryOut yload sess p q.1 q.2).2) := by
  induction es with
  | nil => simp [buildEntries_nil]
  | cons hd tl ih => rw [show hd = (hd.1, hd.2) from rfl, buildEntries_cons]; simp [ih]

theorem lookupEntry_map_entry (k : String) (f : String → ConfigValue → ConfigValue) :
    ∀ es : List (String × ConfigValue),
      lookupEntry k (es.map (fun q => (q.1, f q.1 q.2))) = (lookupEntry k es).map (f k)
  | [] => by simp [lookupEntry]
  | (k2, v) :: rest => by
      by_cases h : k2 = k
      · subst h; simp [lookupEntry]
      · simp [lookupEntry, h, lookupEntry_map_entry k f rest]

theorem lookupEntry_mem {k : String} {v : ConfigValue} :
    ∀ {es : List (String × ConfigValue)}, lookupEntry k es = some v → (k, v) ∈ es
  | [], h => by simp [lookupEntry] at h
  | (k2, v2) :: rest, h => by
      by_cases hk : k2 = k
      · subst hk
        simp [lookupEntry] at h
        subst h
        exact List.mem_cons_self _ _
      · simp [lookupEntry, hk] at h
        exact List.mem_cons_of_mem _ (lookupEntry_mem h)

theorem getAtPath_append_one :
    ∀ (p : List String) (v : ConfigValue) (k : String) (t : ConfigValue),
      getAtPath v (p ++ [k]) = some t
        ↔ ∃ es, getAtPath v p = some (.map es) ∧ lookupEntry k es = some t := by
  intro p
  induction p with
  | nil =>
      intro v k t
      cases v <;> simp [getAtPath]
      case map es => cases h : lookupEntry k es <;> simp [h]
  | cons k1 rest ih =>
      intro v k t
      cases v <;> simp [getAtPath]
      case map es =>
        cases h : lookupEntry k1 es with
        | none => simp
        | some v2 => simpa using ih v2 k t

theorem getAtPath_build_map (yload sess : String → Option ConfigValue) :
    ∀ (p : List String) (v : ConfigValue) (base : List String)
      (es : List (String × ConfigValue)),
      getAtPath v p = some (.map es) →
      getAtPath (build_updated_settings yload sess base v).1 p
        = some (.map (buildEntries yload sess (base ++ p) es).1) := by
  intro p
  induction p with
  | nil =>
      intro v base es h
      simp [getAtPath] at h
      subst h
      simp [build_map, getAtPath]
  | cons k rest ih =>
      intro v base es h
      cases v <;> simp [getAtPath] at h
      case map es1 =>
        cases hl : lookupEntry k es1 with
        | none => simp [hl] at h
        | some v2 =>
            simp [hl] at h
            rw [build_map]
            have hX : lookupEntry k (buildEntries yload sess base es1).1
                = some ((entryOut yload sess base k v2).1) := by
              rw [buildEntries_fst_eq,
                lookupEntry_map_entry k (fun k2 ov => (entryOut yload sess base k2 ov).1) es1, hl]
              rfl
            simp only [getAtPath, hX]
            cases v2 with
            | map es2 =>
                have := ih (.map es2) (base ++ [k]) es h
                simpa [entryOut, List.append_assoc] using this
            | null => cases rest <;> simp [getAtPath] at h
            | bool b => cases rest <;> simp [getAtPath] at h
            | int n => cases rest <;> simp [getAtPath] at h
            | float q => cases rest <;> simp [getAtPath] at h
            | str s => cases rest <;> simp [getAtPath] at h
            | list items => cases rest <;> simp [getAtPath] at h

theorem getAtPath_build_leaf (yload sess : String → Option ConfigValue)
    (p : List String) (k : String) (v : ConfigValue) (base : List String) (ov : ConfigValue)
    (h : getAtPath v (p ++ [k]) = some ov) (hov : ov.isMap = false) :
    getAtPath (build_updated_settings yload sess base v).1 (p ++ [k])
      = some (leafOut yload sess (base ++ (p ++ [k])) k ov).1 := by
  rcases (getAtPath_append_one p v k ov).1 h with ⟨es, hpath, hlook⟩
  rw [getAtPath_append_one]
  refine ⟨(buildEntries yload sess (base ++ p) es).1,
    getAtPath_build_map yload sess p v base es hpath, ?_⟩
  rw [buildEntries_fst_eq,
    lookupEntry_map_entry k (fun k2 ov2 => (entryOut yload sess (base ++ p) k2 ov2).1) es, hlook]
  cases ov <;> simp_all [ConfigValue.isMap, entryOut, List.append_assoc]

theorem warn_mem (yload sess : String → Option ConfigValue) :
    ∀ (p : List String) (v : ConfigValue) (base : List String) (k : String) (ov w : ConfigValue),
      getAtPath v (p ++ [k]) = some ov → ov.isMap = false →
      sess (joinKey (base ++ (p ++ [k]))) = some w → applyEdit yload k ov w = none →
      joinKey (base ++ (p ++ [k])) ∈ (build_updated_settings yload sess base v).2 := by
  intro p
  induction p with
  | nil =>
      intro v base k ov w h hov hs ha
      rcases (getAtPath_append_one [] v k ov).1 h with ⟨es, hpath, hlook⟩
      simp [getAtPath] at hpath
      subst hpath
      rw [build_map]
      simp only [buildEntries_snd_eq]
      rw [List.mem_flatMap]
      refine ⟨(k, ov), lookupEntry_mem hlook, ?_⟩
      cases ov <;> simp_all [ConfigValue.isMap, entryOut, leafOut]
  | cons k1 rest ih =>
      intro v base k ov w h hov hs ha
      cases v <;> simp [getAtPath] at h
      case map es1 =>
        cases hl : lookupEntry k1 es1 with
        | none => simp [hl] at h
        | some v2 =>
            simp [hl] at h
            rw [build_map]
            simp only [buildEntries_snd_eq]
            rw [List.mem_flatMap]
            refine ⟨(k1, v2), lookupEntry_mem hl, ?_⟩
            cases v2 with
            | map es2 =>
                have hs2 : sess (joinKey ((base ++ [k1]) ++ (rest ++ [k]))) = some w := by
                  simpa [List.append_assoc] using hs
                have := ih (.map es2) (base ++ [k1]) k ov w h hov hs2 ha
                simpa [entryOut, List.append_assoc] using this
            | null => cases rest <;> simp [getAtPath] at h
            | bool b => cases rest <;> simp [getAtPath] at h
            | int n => cases rest <;> simp [getAtPath] at h
            | float q => cases rest <;> simp [getAtPath] at h
            | str s => cases rest <;> simp [getAtPath] at h
            | list items => cases rest <;> simp [getAtPath] at h

/-- C10: a non-Map root passed to the reverse walk is returned unchanged,
with no warnings, for every edit mapping: edits at any path are ignored
when the root is not a Map (line 165 of the source). -/
theorem c10_nonmap_root_inert (yload sess : String → Option ConfigValue) (v : ConfigValue)
    (h : v.isMap = false) :
    applyFields yload sess v = v ∧ build_updated_settings yload sess [] v = (v, []) :=
  ⟨by unfold applyFields; rw [build_nonmap yload sess [] v h],
   build_nonmap yload sess [] v h⟩

/-- Witness for C10 at a scalar root with a nonempty edit store. -/
theorem c10_nonmap_root_inert_witness :
    (ConfigValue.int 3).isMap = false ∧
      applyFields (fun _ => none) (fun _ => some (.str "7")) (.int 3) = .int 3 :=
  ⟨rfl, (c10_nonmap_root_inert (fun _ => none) (fun _ => some (.str "7")) (.int 3) rfl).1⟩

/-- C5: for every Map node of the original document reached by the walk
(addressed by a path of keys), the Map produced by the reverse walk has
exactly the same keys in exactly the same order, at any nesting depth. -/
theorem c5_map_keys_preserved (yload sess : String → Option ConfigValue) (T : ConfigValue)
    (p : List String) (es : List (String × ConfigValue))
    (h : getAtPath T p = some (.map es)) :
    ∃ es2, getAtPath (applyFields yload sess T) p = some (.map es2)
      ∧ es2.map Prod.fst = es.map Prod.fst := by
  have hb := getAtPath_build_map yload sess p T [] es h
  simp only [List.nil_append] at hb
  refine ⟨(buildEntries yload sess p es).1, by unfold applyFields; rw [hb], ?_⟩
  rw [buildEntries_fst_eq]
  simp [List.map_map]

/-- Witness for C5 at a nested map with an edit applied inside it. -/
theorem c5_map_keys_preserved_witness :
    (getAtPath (.map [("a", .int 1), ("b", .map [("c", .int 2), ("d", .bool true)])]) ["b"]
        = some (.map [("c", .int 2), ("d", .bool true)])) ∧
      ∃ es2,
        getAtPath
            (applyFields (fun _ => none)
              (fun k => if k = "b_c" then some (.str "5") else none)
              (.map [("a", .int 1), ("b", .map [("c", .int 2), ("d", .bool true)])])) ["b"]
          = some (.map es2)
        ∧ es2.map Prod.fst = [("c", ConfigValue.int 2), ("d", .bool true)].map Prod.fst :=
  ⟨rfl,
   c5_map_keys_preserved (fun _ => none) (fun k => if k = "b_c" then some (.str "5") else none)
     (.map [("a", .int 1), ("b", .map [("c", .int 2), ("d", .bool true)])]) ["b"]
     [("c", .int 2), ("d", .bool true)] rfl⟩

/-- C6: a leaf whose widget key is absent from the edit store is copied
unchanged (deep-equal) into the output of the reverse walk. -/
theorem c6_unbound_leaf_preserved (yload sess : String → Option ConfigValue) (T : ConfigValue)
    (p : List String) (k : String) (ov : ConfigValue)
    (h : getAtPath T (p ++ [k]) = some ov) (hov : ov.isMap = false)
    (habs : sess (joinKey (p ++ [k])) = none) :
    getAtPath (applyFields yload sess T) (p ++ [k]) = some ov := by
  have hb := getAtPath_build_leaf yload sess p k T [] ov h hov
  simp only [List.nil_append] at hb
  unfold applyFields
  rw [hb]
  simp [leafOut, habs]

/-- Witness for C6 at a list leaf with an edit store that binds a
different key. -/
theorem c6_unbound_leaf_preserved_witness :
    (getAtPath (.map [("a", .list [.int 1]), ("b", .int 2)]) ["a"] = some (.list [.int 1])) ∧
      getAtPath
          (applyFields (fun _ => none) (fun k => if k = "b" then some (.str "9") else none)
            (.map [("a", .list [.int 1]), ("b", .int 2)])) ["a"]
        = some (.list [.int 1]) :=
  ⟨rfl,
   c6_unbound_leaf_preserved (fun _ => none)
     (fun k => if k = "b" then some (.str "9") else none)
     (.map [("a", .list [.int 1]), ("b", .int 2)]) [] "a" (.list [.int 1]) rfl rfl rfl⟩

/-- C7: at a list leaf whose key is one of the three simple string-list
names, a raw text edit is split into lines, each line stripped, empty
lines dropped, and each surviving line kept as a string. -/
theorem c7_simple_list_lines (yload sess : String → Option ConfigValue) (T : ConfigValue)
    (p : List String) (k : String) (l : List ConfigValue) (s : String)
    (h : getAtPath T (p ++ [k]) = some (.list l))
    (hk : k ∈ simpleListKeys)
    (hs : sess (joinKey (p ++ [k])) = some (.str s)) :
    getAtPath (applyFields yload sess T) (p ++ [k])
      = some (.list (parseStringLines (pySplitlines s))) := by
  have hb := getAtPath_build_leaf yload sess p k T [] (.list l) h rfl
  simp only [List.nil_append] at hb
  unfold applyFields
  rw [hb]
  simp [leafOut, hs, applyEdit, hk, pySplitlinesVal]

/-- Witness for C7: raw text with an inner blank line yields the three
stripped lines as strings. -/
theorem c7_simple_list_lines_witness :
    ("sender_email" ∈ simpleListKeys) ∧
      getAtPath
          (applyFields (fun _ => none)
            (fun k => if k = "sender_email" then some (.str "a\nb\n\nc") else none)
            (.map [("sender_email", .list [.str "x"])])) ["sender_email"]
        = some (.list [.str "a", .str "b", .str "c"]) :=
  ⟨by decide,
   c7_simple_list_lines (fun _ => none)
     (fun k => if k = "sender_email" then some (.str "a\nb\n\nc") else none)
     (.map [("sender_email", .list [.str "x"])]) [] "sender_email" [.str "x"] "a\nb\n\nc"
     rfl (by decide) rfl⟩

/-- C3 counterexample: the claim says every line that parses as an
integer is kept, naming the negative literal -3; but the source filters
lines with isdigit, which rejects a leading minus sign, so raw text -3
at the serial_numbers leaf yields the empty list even though int()
parses -3. -/
theorem c3_serial_numbers_counterexample :
    parseIntPy "-3" = some (-3) ∧
      applyFields (fun _ => none)
          (fun k => if k = "serial_numbers" then some (.str "-3") else none)
          (.map [("serial_numbers", .list [.int 1])])
        = .map [("serial_numbers", .list [])] :=
  ⟨rfl, rfl⟩

/-- C3 (amended): at a serial_numbers list leaf, a raw text edit is
split into lines, each line trimmed, and exactly the lines whose
trimmed text passes isdigit (all decimal digits, so no sign) are kept,
parsed with int(); every other line, including a negative integer
literal, is silently dropped.  Raw text with lines 5, foo, 7 yields the
integers 5 and 7. -/
theorem c3_serial_numbers_digit_lines (yload sess : String → Option ConfigValue)
    (T : ConfigValue) (p : List String) (l : List ConfigValue) (s : String)
    (h : getAtPath T (p ++ ["serial_numbers"]) = some (.list l))
    (hs : sess (joinKey (p ++ ["serial_numbers"])) = some (.str s)) :
    getAtPath (applyFields yload sess T) (p ++ ["serial_numbers"])
      = some (.list (parseSerialLines (pySplitlines s))) := by
  have hb := getAtPath_build_leaf yload sess p "serial_numbers" T [] (.list l) h rfl
  simp only [List.nil_append] at hb
  unfold applyFields
  rw [hb]
  have hns : "serial_numbers" ∉ simpleListKeys := by decide
  simp [leafOut, hs, applyEdit, hns, pySplitlinesVal]

/-- Witness for C3 (amended): raw text with lines 5, foo, 7 yields the
integer list 5, 7; the non-digit line is dropped. -/
theorem c3_serial_numbers_digit_lines_witness :
    getAtPath
        (applyFields (fun _ => none)
          (fun k => if k = "serial_numbers" then some (.str "5\nfoo\n7") else none)
          (.map [("serial_numbers", .list [.int 1])])) ["serial_numbers"]
      = some (.list [.int 5, .int 7]) :=
  c3_serial_numbers_digit_lines (fun _ => none)
    (fun k => if k = "serial_numbers" then some (.str "5\nfoo\n7") else none)
    (.map [("serial_numbers", .list [.int 1])]) [] [.int 1] "5\nfoo\n7" rfl rfl

/-- C8 counterexample: the claim quantifies over every document holding
a group_id leaf, but the source dispatches on the original type first;
with original value int 7 at the group_id leaf, the raw edit 42 is
parsed by the int branch and yields int 42, not the string 42. -/
theorem c8_group_id_counterexample :
    applyFields (fun _ => none)
        (fun k => if k = "group_id" then some (.str "42") else none)
        (.map [("group_id", .int 7)])
      = .map [("group_id", .int 42)] ∧
    ConfigValue.map [("group_id", ConfigValue.int 42)]
      ≠ .map [("group_id", .str "42")] :=
  ⟨rfl, by simp⟩

/-- C8 (amended): at a group_id leaf whose original value is not a
bool, int or float (so null, string or list originals, reached by the
group_id branch of the source), an empty-string edit yields null and a
non-empty string edit yields the entered string verbatim. -/
theorem c8_group_id_coercion (yload sess : String → Option ConfigValue) (T : ConfigValue)
    (p : List String) (ov : ConfigValue) (s : String)
    (h : getAtPath T (p ++ ["group_id"]) = some ov)
    (hb : ov.isBool = false) (hi : ov.isInt = false) (hf : ov.isFloat = false)
    (hm : ov.isMap = false)
    (hs : sess (joinKey (p ++ ["group_id"])) = some (.str s)) :
    getAtPath (applyFields yload sess T) (p ++ ["group_id"])
      = some (if s = "" then ConfigValue.null else .str s) := by
  have hlf := getAtPath_build_leaf yload sess p "group_id" T [] ov h hm
  simp only [List.nil_append] at hlf
  unfold applyFields
  rw [hlf]
  cases ov with
  | bool b => simp [ConfigValue.isBool] at hb
  | int n => simp [ConfigValue.isInt] at hi
  | float q => simp [ConfigValue.isFloat] at hf
  | map es => simp [ConfigValue.isMap] at hm
  | null =>
      simp only [leafOut, hs, applyEdit]
      by_cases hse : s = "" <;> simp [pyTruthy, hse, String.isEmpty_iff]
  | str t =>
      simp only [leafOut, hs, applyEdit]
      by_cases hse : s = "" <;> simp [pyTruthy, hse, String.isEmpty_iff]
  | list items =>
      simp only [leafOut, hs, applyEdit]
      have h1 : ¬ ("group_id" ∈ simpleListKeys) := by decide
      have h2 : ¬ ("group_id" = "serial_numbers") := by decide
      have h3 : ¬ ("group_id" = "session_types" ∧ PYYAML_AVAILABLE = true) := by decide
      by_cases hse : s = "" <;> simp [h1, h2, h3, pyTruthy, hse, String.isEmpty_iff]

/-- Witness for C8 (amended): with original value null at the group_id
leaf, the empty edit yields null and the edit 42 yields the string
42. -/
theorem c8_group_id_coercion_witness :
    getAtPath
        (applyFields (fun _ => none)
          (fun k => if k = "group_id" then some (.str "") else none)
          (.map [("group_id", .null)])) ["group_id"]
      = some .null ∧
    getAtPath
        (applyFields (fun _ => none)
          (fun k => if k = "group_id" then some (.str "42") else none)
          (.map [("group_id", .null)])) ["group_id"]
      = some (.str "42") :=
  ⟨c8_group_id_coercion (fun _ => none)
     (fun k => if k = "group_id" then some (.str "") else none)
     (.map [("group_id", .null)]) [] .null "" rfl rfl rfl rfl rfl rfl,
   c8_group_id_coercion (fun _ => none)
     (fun k => if k = "group_id" then some (.str "42") else none)
     (.map [("group_id", .null)]) [] .null "42" rfl rfl rfl rfl rfl rfl⟩

/-- C2 counterexample: the key foo is not a text-area list key and not
session_types, so its list is rendered ReadOnly; yet with an edit
present at its path the fallback branch of line 158 assigns the raw
edit value verbatim, replacing the list. -/
theorem c2_readonly_list_counterexample :
    ("foo" ∉ textareaListKeys) ∧
      applyFields (fun _ => none) (fun k => if k = "foo" then some (.str "bar") else none)
          (.map [("foo", .list [.int 1])])
        = .map [("foo", .str "bar")] ∧
      ConfigValue.map [("foo", ConfigValue.str "bar")] ≠ .map [("foo", .list [.int 1])] :=
  ⟨by decide, rfl, by simp⟩

/-- C2 (amended): a list leaf rendered ReadOnly is copied unchanged
whenever no edit is present at its path; when an edit is present at a
ReadOnly list leaf whose key is neither session_types nor group_id, the
raw edit value is assigned verbatim by the fallback branch instead. -/
theorem c2_readonly_list_behavior (yload sess : String → Option ConfigValue)
    (T : ConfigValue) (p : List String) (k : String) (items : List ConfigValue)
    (h : getAtPath T (p ++ [k]) = some (.list items))
    (hro : k ∉ textareaListKeys ∧ ¬(k = "session_types" ∧ items.all ConfigValue.isMap = true)) :
    (sess (joinKey (p ++ [k])) = none →
        getAtPath (applyFields yload sess T) (p ++ [k]) = some (.list items)) ∧
    (∀ w, k ≠ "session_types" → k ≠ "group_id" → sess (joinKey (p ++ [k])) = some w →
        getAtPath (applyFields yload sess T) (p ++ [k]) = some w) := by
  have hlf := getAtPath_build_leaf yload sess p k T [] (.list items) h rfl
  simp only [List.nil_append] at hlf
  constructor
  · intro habs
    unfold applyFields
    rw [hlf]
    simp [leafOut, habs]
  · intro w hns hng hsw
    unfold applyFields
    rw [hlf]
    have h1 : k ∉ simpleListKeys := by
      intro hmem
      apply hro.1
      simp [simpleListKeys] at hmem
      simp [textareaListKeys]
      tauto
    have h2 : k ≠ "serial_numbers" := by
      intro he
      exact hro.1 (by rw [he]; decide)
    simp [leafOut, hsw, applyEdit, h1, h2, hns, hng]

/-- Witness for C2 (amended): the ReadOnly list at key foo is kept when
unbound, and replaced verbatim by the raw edit value when bound. -/
theorem c2_readonly_list_behavior_witness :
    getAtPath
        (applyFields (fun _ => none) (fun _ => none)
          (.map [("foo", .list [.int 1])])) ["foo"]
      = some (.list [.int 1]) ∧
    getAtPath
        (applyFields (fun _ => none)
          (fun k => if k = "foo" then some (.str "bar") else none)
          (.map [("foo", .list [.int 1])])) ["foo"]
      = some (.str "bar") :=
  ⟨(c2_readonly_list_behavior (fun _ => none) (fun _ => none)
      (.map [("foo", .list [.int 1])]) [] "foo" [.int 1] rfl
      ⟨by decide, by decide⟩).1 rfl,
   (c2_readonly_list_behavior (fun _ => none)
      (fun k => if k = "foo" then some (.str "bar") else none)
      (.map [("foo", .list [.int 1])]) [] "foo" [.int 1] rfl
      ⟨by decide, by decide⟩).2 (.str "bar") (by decide) (by decide) rfl⟩

/-- C4: when the edit at an Int or Float leaf fails to parse, the
reverse walk keeps that leaf at its original value, surfaces a warning
naming the widget key, and still gives every leaf of the document its
own normal per-leaf treatment (so no coercion failure aborts the walk
or blocks the other edits). -/
theorem c4_coercion_failure_nonfatal (yload sess : String → Option ConfigValue)
    (T : ConfigValue) (p : List String) (k : String) (ov w : ConfigValue)
    (h : getAtPath T (p ++ [k]) = some ov)
    (hfail : (ov.isInt = true ∧ pyInt w = none) ∨ (ov.isFloat = true ∧ pyFloat w = none))
    (hs : sess (joinKey (p ++ [k])) = some w) :
    getAtPath (applyFields yload sess T) (p ++ [k]) = some ov ∧
    joinKey (p ++ [k]) ∈ (build_updated_settings yload sess [] T).2 ∧
    (∀ p2 k2 ov2, getAtPath T (p2 ++ [k2]) = some ov2 → ov2.isMap = false →
        getAtPath (applyFields yload sess T) (p2 ++ [k2])
          = some (leafOut yload sess (p2 ++ [k2]) k2 ov2).1) := by
  have hovm : ov.isMap = false := by
    rcases hfail with ⟨hint, _⟩ | ⟨hfl, _⟩ <;>
      cases ov <;> simp_all [ConfigValue.isInt, ConfigValue.isFloat, ConfigValue.isMap]
  have happ : applyEdit yload k ov w = none := by
    rcases hfail with ⟨hint, hnone⟩ | ⟨hfl, hnone⟩ <;>
      cases ov <;> simp_all [ConfigValue.isInt, ConfigValue.isFloat, applyEdit]
  refine ⟨?_, ?_, ?_⟩
  · have hlf := getAtPath_build_leaf yload sess p k T [] ov h hovm
    simp only [List.nil_append] at hlf
    unfold applyFields
    rw [hlf]
    simp [leafOut, hs, happ]
  · have hw := warn_mem yload sess p T [] k ov w h hovm (by simpa using hs) happ
    simpa using hw
  · intro p2 k2 ov2 h2 hm2
    have hlf := getAtPath_build_leaf yload sess p2 k2 T [] ov2 h2 hm2
    simp only [List.nil_append] at hlf
    unfold applyFields
    rw [hlf]

/-- Witness for C4: the edit foo at the int leaf n fails to parse, so n
keeps its value 1 and is warned about, while the edit 8 at the sibling
int leaf m is still applied. -/
theorem c4_coercion_failure_nonfatal_witness :
    pyInt (.str "foo") = none ∧
    getAtPath
        (applyFields (fun _ => none)
          (fun k => if k = "n" then some (.str "foo")
            else if k = "m" then some (.str "8") else none)
          (.map [("n", .int 1), ("m", .int 2)])) ["n"]
      = some (.int 1) ∧
    "n" ∈ (build_updated_settings (fun _ => none)
        (fun k => if k = "n" then some (.str "foo")
          else if k = "m" then some (.str "8") else none)
        [] (.map [("n", .int 1), ("m", .int 2)])).2 ∧
    getAtPath
        (applyFields (fun _ => none)
          (fun k => if k = "n" then some (.str "foo")
            else if k = "m" then some (.str "8") else none)
          (.map [("n", .int 1), ("m", .int 2)])) ["m"]
      = some (.int 8) := by
  have C := c4_coercion_failure_nonfatal (fun _ => none)
    (fun k => if k = "n" then some (.str "foo")
      else if k = "m" then some (.str "8") else none)
    (.map [("n", .int 1), ("m", .int 2)]) [] "n" (.int 1) (.str "foo")
    rfl (Or.inl ⟨rfl, rfl⟩) rfl
  exact ⟨rfl, C.1, C.2.1, C.2.2 [] "m" (.int 2) rfl rfl⟩

theorem leafOut_trivial (yload sess : String → Option ConfigValue) (cur : List String)
    (k : String) (ov : ConfigValue)
    (hov : ov.isMap = false)
    (hsess : sess (joinKey cur) = some ov)
    (hgid : k = "group_id" → ov ≠ .str "" ∧ ov ≠ .list []) :
    (leafOut yload sess cur k ov).1 = ov := by
  simp only [leafOut, hsess]
  cases ov with
  | map es => simp [ConfigValue.isMap] at hov
  | bool b => simp [applyEdit, pyTruthy]
  | int n => simp [applyEdit, pyInt]
  | float q => simp [applyEdit, pyFloat]
  | null =>
      by_cases hk : k = "group_id"
      · simp [applyEdit, hk, pyTruthy]
      · simp [applyEdit, hk]
  | str s =>
      by_cases hk : k = "group_id"
      · have hne : s ≠ "" := by
          intro he
          exact (hgid hk).1 (by rw [he])
        simp [applyEdit, hk, pyTruthy, String.isEmpty_iff, hne]
      · simp [applyEdit, hk, pyStr]
  | list items =>
      by_cases h1 : k ∈ simpleListKeys
      · simp [applyEdit, h1, pySplitlinesVal]
      · by_cases h2 : k = "serial_numbers"
        · simp [applyEdit, h1, h2, pySplitlinesVal]
        · by_cases h3 : k = "session_types"
          · subst h3
            have hm : ¬ ("session_types" ∈ simpleListKeys) := by decide
            simp [applyEdit, hm, PYYAML_AVAILABLE]
          · by_cases hk : k = "group_id"
            · subst hk
              have hne : items ≠ [] := by
                intro he
                exact (hgid rfl).2 (by rw [he])
              have hm : ¬ ("group_id" ∈ simpleListKeys) := by decide
              have hm2 : ¬ ("group_id" = "serial_numbers") := by decide
              have hm3 : ¬ ("group_id" = "session_types") := by decide
              simp [applyEdit, hm, hm2, hm3, pyTruthy, List.isEmpty_iff, hne]
            · simp [applyEdit, h1, h2, h3, hk]

theorem leaves_map_eq (base : List String) (es : List (String × ConfigValue)) :
    leaves base (.map es) = leavesEntries base es := by
  simp [leaves]

theorem leavesEntries_cons_map (base : List String) (k : String)
    (es2 rest : List (String × ConfigValue)) :
    leavesEntries base ((k, .map es2) :: rest)
      = leaves (base ++ [k]) (.map es2) ++ leavesEntries base rest := by
  simp [leavesEntries]

theorem leavesEntries_cons_leaf (base : List String) (k : String) (ov : ConfigValue)
    (rest : List (String × ConfigValue)) (h : ov.isMap = false) :
    leavesEntries base ((k, ov) :: rest) = (base ++ [k], k, ov) :: leavesEntries base rest := by
  cases ov <;> simp_all [leavesEntries, ConfigValue.isMap]

theorem leavesEntries_tail_subset (base : List String) (k : String) (ov : ConfigValue)
    (tl : List (String × ConfigValue)) :
    ∀ x ∈ leavesEntries base tl, x ∈ leavesEntries base ((k, ov) :: tl) := by
  intro x hx
  cases ov
  case map es2 =>
    rw [leavesEntries_cons_map]
    exact List.mem_append_right _ hx
  case null =>
    rw [leavesEntries_cons_leaf base k .null tl rfl]
    exact List.mem_cons_of_mem _ hx
  case bool b =>
    rw [leavesEntries_cons_leaf base k (.bool b) tl rfl]
    exact List.mem_cons_of_mem _ hx
  case int n =>
    rw [leavesEntries_cons_leaf base k (.int n) tl rfl]
    exact List.mem_cons_of_mem _ hx
  case float q =>
    rw [leavesEntries_cons_leaf base k (.float q) tl rfl]
    exact List.mem_cons_of_mem _ hx
  case str s =>
    rw [leavesEntries_cons_leaf base k (.str s) tl rfl]
    exact List.mem_cons_of_mem _ hx
  case list items =>
    rw [leavesEntries_cons_leaf base k (.list items) tl rfl]
    exact List.mem_cons_of_mem _ hx

theorem leavesEntries_head_leaf_mem (base : List String) (k : String) (ov : ConfigValue)
    (tl : List (String × ConfigValue)) (h : ov.isMap = false) :
    (base ++ [k], k, ov) ∈ leavesEntries base ((k, ov) :: tl) := by
  rw [leavesEntries_cons_leaf _ _ _ _ h]
  exact List.mem_cons_self _ _

theorem leavesEntries_head_map_subset (base : List String) (k : String)
    (es2 tl : List (String × ConfigValue)) :
    ∀ x ∈ leaves (base ++ [k]) (.map es2), x ∈ leavesEntries base ((k, .map es2) :: tl) := by
  intro x hx
  rw [leavesEntries_cons_map]
  exact List.mem_append_left _ hx

theorem sizeOf_val_lt_entries {q : String × ConfigValue} {es : List (String × ConfigValue)}
    (h : q ∈ es) : sizeOf q.2 < sizeOf es := by
  have h1 := List.sizeOf_lt_of_mem h
  rcases q with ⟨a, b⟩
  simp only [Prod.mk.sizeOf_spec] at h1
  simp only []
  omega

theorem roundtripEntries_aux (yload sess : String → Option ConfigValue) (N : Nat)
    (ihv : ∀ v2, sizeOf v2 < N → ∀ base2 : List String,
        (∀ x ∈ leaves base2 v2, sess (joinKey x.1) = some x.2.2) →
        (∀ x ∈ leaves base2 v2, x.2.1 = "group_id" → x.2.2 ≠ .str "" ∧ x.2.2 ≠ .list []) →
        (build_updated_settings yload sess base2 v2).1 = v2) :
    ∀ es : List (String × ConfigValue), (∀ q ∈ es, sizeOf q.2 < N) →
      ∀ base : List String,
        (∀ x ∈ leavesEntries base es, sess (joinKey x.1) = some x.2.2) →
        (∀ x ∈ leavesEntries base es, x.2.1 = "group_id" → x.2.2 ≠ .str "" ∧ x.2.2 ≠ .list []) →
        (buildEntries yload sess base es).1 = es := by
  intro es
  induction es with
  | nil =>
      intro _ base _ _
      rw [buildEntries_nil]
  | cons hd tl ihes =>
      rcases hd with ⟨k, ov⟩
      intro hsz base h1 h2
      rw [buildEntries_cons]
      have htl := ihes (fun q hq => hsz q (List.mem_cons_of_mem _ hq)) base
        (fun x hx => h1 x (leavesEntries_tail_subset base k ov tl x hx))
        (fun x hx => h2 x (leavesEntries_tail_subset base k ov tl x hx))
      have hhead : (entryOut yload sess base k ov).1 = ov := by
        cases ov
        case map es2 =>
          have hb := ihv (.map es2) (hsz (k, .map es2) (List.mem_cons_self _ _)) (base ++ [k])
            (fun x hx => h1 x (leavesEntries_head_map_subset base k es2 tl x hx))
            (fun x hx => h2 x (leavesEntries_head_map_subset base k es2 tl x hx))
          simpa [entryOut] using hb
        all_goals
          exact leafOut_trivial yload sess (base ++ [k]) k _ rfl
            (h1 _ (leavesEntries_head_leaf_mem base k _ tl rfl))
            (h2 _ (leavesEntries_head_leaf_mem base k _ tl rfl))
      simp [hhead, htl]

theorem roundtrip_fuel (yload sess : String → Option ConfigValue) :
    ∀ (N : Nat) (v : ConfigValue), sizeOf v < N → ∀ base : List String,
      (∀ x ∈ leaves base v, sess (joinKey x.1) = some x.2.2) →
      (∀ x ∈ leaves base v, x.2.1 = "group_id" → x.2.2 ≠ .str "" ∧ x.2.2 ≠ .list []) →
      (build_updated_settings yload sess base v).1 = v := by
  intro N
  induction N with
  | zero =>
      intro v hv
      exact absurd hv (Nat.not_lt_zero _)
  | succ N ih =>
      intro v hv base h1 h2
      cases v with
      | map es =>
          rw [build_map]
          have hms : sizeOf (ConfigValue.map es) = 1 + sizeOf es := by simp
          have hes : (buildEntries yload sess base es).1 = es := by
            apply roundtripEntries_aux yload sess N ih es
            · intro q hq
              have hlt := sizeOf_val_lt_entries hq
              omega
            · intro x hx
              exact h1 x (by rw [leaves_map_eq]; exact hx)
            · intro x hx
              exact h2 x (by rw [leaves_map_eq]; exact hx)
          simp [hes]
      | null => rw [build_nonmap yload sess base .null rfl]
      | bool b => rw [build_nonmap yload sess base (.bool b) rfl]
      | int n => rw [build_nonmap yload sess base (.int n) rfl]
      | float q => rw [build_nonmap yload sess base (.float q) rfl]
      | str s => rw [build_nonmap yload sess base (.str s) rfl]
      | list items => rw [build_nonmap yload sess base (.list items) rfl]

theorem roundtripVal (yload sess : String → Option ConfigValue) (v : ConfigValue)
    (base : List String)
    (h1 : ∀ x ∈ leaves base v, sess (joinKey x.1) = some x.2.2)
    (h2 : ∀ x ∈ leaves base v, x.2.1 = "group_id" → x.2.2 ≠ .str "" ∧ x.2.2 ≠ .list []) :
    (build_updated_settings yload sess base v).1 = v :=
  roundtrip_fuel yload sess (sizeOf v + 1) v (Nat.lt_succ_self _) base h1 h2

/-- C1 counterexample: the claim says a group-id leaf whose original
value is the empty string comes back unchanged under the trivial edit
set; but the group_id branch maps a falsy edit to null, so the document
with group_id mapped to the empty string round-trips to group_id mapped
to null. -/
theorem c1_roundtrip_counterexample :
    applyFields (fun _ => none)
        (fun k => if k = "group_id" then some (.str "") else none)
        (.map [("group_id", .str "")])
      = .map [("group_id", .null)] ∧
    ConfigValue.map [("group_id", ConfigValue.null)] ≠ .map [("group_id", .str "")] :=
  ⟨rfl, by simp⟩

/-- C1 (amended): when the edit store binds every leaf path of the
document to that leaf's original value, the reverse walk returns a
document deep-equal to the original, provided no group_id leaf holds
the empty string or the empty list (those two come back as null); in
particular list leaves, null leaves and nonempty group-id leaves come
back unchanged. -/
theorem c1_roundtrip_trivial_edits (yload sess : String → Option ConfigValue) (T : ConfigValue)
    (htriv : ∀ x ∈ leaves [] T, sess (joinKey x.1) = some x.2.2)
    (hgid : ∀ x ∈ leaves [] T,
      x.2.1 = "group_id" → x.2.2 ≠ .str "" ∧ x.2.2 ≠ .list []) :
    applyFields yload sess T = T := by
  unfold applyFields
  exact roundtripVal yload sess T [] htriv hgid

/-- Witness for C1 (amended): a document with nested map, int, string,
null group_id and list leaves round-trips unchanged under its trivial
edit set. -/
theorem c1_roundtrip_trivial_edits_witness :
    applyFields (fun _ => none)
      (fun k =>
        if k = "global_threads" then some (.int 2)
        else if k = "global_mode" then some (.str "prod")
        else if k = "group_id" then some .null
        else if k = "ads" then some (.list [.str "x"]) else none)
      (.map [("global", .map [("threads", .int 2), ("mode", .str "prod")]),
             ("group_id", .null), ("ads", .list [.str "x"])])
      = .map [("global", .map [("threads", .int 2), ("mode", .str "prod")]),
              ("group_id", .null), ("ads", .list [.str "x"])] := by
  apply c1_roundtrip_trivial_edits
  · intro x hx
    fin_cases hx <;> rfl
  · intro x hx
    fin_cases hx <;>
      first
        | (intro hgk; exact absurd hgk (by decide))
        | (intro hgk; exact ⟨by simp, by simp⟩)

theorem entryOut_eq (yload sess : String → Option ConfigValue) (base : List String)
    (k : String) (ov : ConfigValue) :
    entryOut yload sess base k ov
      = if ov.isMap = true then build_updated_settings yload sess (base ++ [k]) ov
        else leafOut yload sess (base ++ [k]) k ov := by
  cases ov <;> simp [entryOut, ConfigValue.isMap]

theorem applyEdit_groupid_stable (yload : String → Option ConfigValue) (w : ConfigValue)
    (hw : w.isMap = false) :
    applyEdit yload "group_id" (if pyTruthy w then w else ConfigValue.null) w
      = some (if pyTruthy w then w else .null) := by
  cases ht : pyTruthy w with
  | false => simp [applyEdit, ht]
  | true =>
      simp only [ht, if_true]
      cases w with
      | map es => simp [ConfigValue.isMap] at hw
      | null => simp [pyTruthy] at ht
      | bool b =>
          simp [pyTruthy] at ht
          subst ht
          simp [applyEdit, pyTruthy]
      | int n => simp [applyEdit, pyInt]
      | float q => simp [applyEdit, pyFloat]
      | str s => simp [applyEdit, ht]
      | list items =>
          have hm : ¬ ("group_id" ∈ simpleListKeys) := by decide
          have hm2 : ¬ ("group_id" = "serial_numbers") := by decide
          have hm3 : ¬ ("group_id" = "session_types") := by decide
          simp [applyEdit, hm, hm2, hm3, ht]

theorem applyEdit_assign_stable (yload : String → Option ConfigValue) (k : String)
    (w : ConfigValue) (hw : w.isMap = false) (hk : k ≠ "group_id") :
    applyEdit yload k w w = some w ∨ applyEdit yload k w w = none := by
  cases w with
  | map es => simp [ConfigValue.isMap] at hw
  | null => exact Or.inl (by simp [applyEdit, hk])
  | bool b => exact Or.inl (by simp [applyEdit, pyTruthy])
  | int n => exact Or.inl (by simp [applyEdit, pyInt])
  | float q => exact Or.inl (by simp [applyEdit, pyFloat])
  | str s => exact Or.inl (by simp [applyEdit, hk, pyStr])
  | list items =>
      by_cases h1 : k ∈ simpleListKeys
      · exact Or.inr (by simp [applyEdit, h1, pySplitlinesVal])
      · by_cases h2 : k = "serial_numbers"
        · subst h2
          have hm : ¬ ("serial_numbers" ∈ simpleListKeys) := by decide
          exact Or.inr (by simp [applyEdit, hm, pySplitlinesVal])
        · by_cases h3 : k = "session_types"
          · subst h3
            have hm : ¬ ("session_types" ∈ simpleListKeys) := by decide
            have hm2 : ¬ ("session_types" = "serial_numbers") := by decide
            exact Or.inr (by simp [applyEdit, hm, hm2, PYYAML_AVAILABLE])
          · exact Or.inl (by simp [applyEdit, h1, h2, h3, hk])

theorem applyEdit_some_nonmap (yload : String → Option ConfigValue) (k : String)
    (ov w v : ConfigValue) (hov : ov.isMap = false) (hw : w.isMap = false)
    (h : applyEdit yload k ov w = some v) : v.isMap = false := by
  cases ov with
  | map es => simp [ConfigValue.isMap] at hov
  | bool b =>
      simp [applyEdit] at h
      subst h
      rfl
  | int n =>
      cases hpi : pyInt w with
      | none => simp [applyEdit, hpi] at h
      | some m =>
          simp [applyEdit, hpi] at h
          subst h
          rfl
  | float q =>
      cases hpf : pyFloat w with
      | none => simp [applyEdit, hpf] at h
      | some x =>
          simp [applyEdit, hpf] at h
          subst h
          rfl
  | null =>
      by_cases hk : k = "group_id"
      · simp [applyEdit, hk] at h
        cases ht : pyTruthy w with
        | false => simp [ht] at h; subst h; rfl
        | true => simp [ht] at h; subst h; exact hw
      · simp [applyEdit, hk] at h
        subst h
        exact hw
  | str s =>
      by_cases hk : k = "group_id"
      · simp [applyEdit, hk] at h
        cases ht : pyTruthy w with
        | false => simp [ht] at h; subst h; rfl
        | true => simp [ht] at h; subst h; exact hw
      · simp [applyEdit, hk] at h
        subst h
        rfl
  | list items =>
      by_cases h1 : k ∈ simpleListKeys
      · cases hsp : pySplitlinesVal w with
        | none => simp [applyEdit, h1, hsp] at h
        | some ls =>
            simp [applyEdit, h1, hsp] at h
            subst h
            rfl
      · by_cases h2 : k = "serial_numbers"
        · subst h2
          have hm : ¬ ("serial_numbers" ∈ simpleListKeys) := by decide
          cases hsp : pySplitlinesVal w with
          | none => simp [applyEdit, hm, hsp] at h
          | some ls =>
              simp [applyEdit, hm, hsp] at h
              subst h
              rfl
        · by_cases h3 : k = "session_types"
          · subst h3
            have hm : ¬ ("session_types" ∈ simpleListKeys) := by decide
            have hm2 : ¬ ("session_types" = "serial_numbers") := by decide
            cases w with
            | str s2 =>
                cases hy : yload s2 with
                | none => simp [applyEdit, hm, hm2, PYYAML_AVAILABLE, hy] at h
                | some p =>
                    simp [applyEdit, hm, hm2, PYYAML_AVAILABLE, hy] at h
                    cases p <;> simp [ConfigValue.isList] at h <;> (subst h; rfl)
            | null => simp [applyEdit, hm, hm2, PYYAML_AVAILABLE] at h
            | bool b => simp [applyEdit, hm, hm2, PYYAML_AVAILABLE] at h
            | int n => simp [applyEdit, hm, hm2, PYYAML_AVAILABLE] at h
            | float q => simp [applyEdit, hm, hm2, PYYAML_AVAILABLE] at h
            | list l2 => simp [applyEdit, hm, hm2, PYYAML_AVAILABLE] at h
            | map es2 => simp [applyEdit, hm, hm2, PYYAML_AVAILABLE] at h
          · by_cases hk : k = "group_id"
            · subst hk
              have hm : ¬ ("group_id" ∈ simpleListKeys) := by decide
              have hm2 : ¬ ("group_id" = "serial_numbers") := by decide
              have hm3 : ¬ ("group_id" = "session_types") := by decide
              simp [applyEdit, hm, hm2, hm3] at h
              cases ht : pyTruthy w with
              | false => simp [ht] at h; subst h; rfl
              | true => simp [ht] at h; subst h; exact hw
            · simp [applyEdit, h1, h2, h3, hk] at h
              subst h
              exact hw

theorem leafOut_fst_nonmap (yload sess : String → Option ConfigValue) (cur : List String)
    (k : String) (ov : ConfigValue) (hov : ov.isMap = false)
    (hsess : ∀ w, sess (joinKey cur) = some w → w.isMap = false) :
    ((leafOut yload sess cur k ov).1).isMap = false := by
  cases hs : sess (joinKey cur) with
  | none => simpa [leafOut, hs] using hov
  | some w =>
      cases ha : applyEdit yload k ov w with
      | none => simpa [leafOut, hs, ha] using hov
      | some v =>
          have := applyEdit_some_nonmap yload k ov w v hov (hsess w hs) ha
          simpa [leafOut, hs, ha] using this

theorem leafOut_fst_idem (yload sess : String → Option ConfigValue) (cur : List String)
    (k : String) (ov : ConfigValue) (hov : ov.isMap = false)
    (hsess : ∀ w, sess (joinKey cur) = some w → w.isMap = false) :
    (leafOut yload sess cur k ((leafOut yload sess cur k ov).1)).1
      = (leafOut yload sess cur k ov).1 := by
  cases hs : sess (joinKey cur) with
  | none => simp [leafOut, hs]
  | some w =>
      have hw := hsess w hs
      cases ha : applyEdit yload k ov w with
      | none => simp [leafOut, hs, ha]
      | some v1 =>
          simp only [leafOut, hs, ha]
          cases ov with
          | map es => simp [ConfigValue.isMap] at hov
          | bool b =>
              simp [applyEdit] at ha
              subst ha
              simp [applyEdit]
          | int n =>
              cases hpi : pyInt w with
              | none => simp [applyEdit, hpi] at ha
              | some m =>
                  simp [applyEdit, hpi] at ha
                  subst ha
                  simp [applyEdit, hpi]
          | float q =>
              cases hpf : pyFloat w with
              | none => simp [applyEdit, hpf] at ha
              | some x =>
                  simp [applyEdit, hpf] at ha
                  subst ha
                  simp [applyEdit, hpf]
          | null =>
              by_cases hk : k = "group_id"
              · subst hk
                simp [applyEdit] at ha
                subst ha
                rw [applyEdit_groupid_stable yload w hw]
              · simp [applyEdit, hk] at ha
                subst ha
                rcases applyEdit_assign_stable yload k w hw hk with hc | hc <;> simp [hc]
          | str s =>
              by_cases hk : k = "group_id"
              · subst hk
                simp [applyEdit] at ha
                subst ha
                rw [applyEdit_groupid_stable yload w hw]
              · simp [applyEdit, hk] at ha
                subst ha
                simp [applyEdit, hk, pyStr]
          | list items =>
              by_cases h1 : k ∈ simpleListKeys
              · cases hsp : pySplitlinesVal w with
                | none => simp [applyEdit, h1, hsp] at ha
                | some ls =>
                    simp [applyEdit, h1, hsp] at ha
                    subst ha
                    simp [applyEdit, h1, hsp]
              · by_cases h2 : k = "serial_numbers"
                · subst h2
                  have hm : ¬ ("serial_numbers" ∈ simpleListKeys) := by decide
                  cases hsp : pySplitlinesVal w with
                  | none => simp [applyEdit, hm, hsp] at ha
                  | some ls =>
                      simp [applyEdit, hm, hsp] at ha
                      subst ha
                      simp [applyEdit, hm, hsp]
                · by_cases h3 : k = "session_types"
                  · subst h3
                    have hm : ¬ ("session_types" ∈ simpleListKeys) := by decide
                    have hm2 : ¬ ("session_types" = "serial_numbers") := by decide
                    cases w with
                    | str s2 =>
                        cases hy : yload s2 with
                        | none => simp [applyEdit, hm, hm2, PYYAML_AVAILABLE, hy] at ha
                        | some p =>
                            simp [applyEdit, hm, hm2, PYYAML_AVAILABLE, hy] at ha
                            cases p <;> simp [ConfigValue.isList] at ha <;>
                              (subst ha;
                               simp [applyEdit, hm, hm2, PYYAML_AVAILABLE, hy,
                                 ConfigValue.isList])
                    | null => simp [applyEdit, hm, hm2, PYYAML_AVAILABLE] at ha
                    | bool b => simp [applyEdit, hm, hm2, PYYAML_AVAILABLE] at ha
                    | int n => simp [applyEdit, hm, hm2, PYYAML_AVAILABLE] at ha
                    | float q => simp [applyEdit, hm, hm2, PYYAML_AVAILABLE] at ha
                    | list l2 => simp [applyEdit, hm, hm2, PYYAML_AVAILABLE] at ha
                    | map es2 => simp [applyEdit, hm, hm2, PYYAML_AVAILABLE] at ha
                  · by_cases hk : k = "group_id"
                    · subst hk
                      have hm : ¬ ("group_id" ∈ simpleListKeys) := by decide
                      have hm2 : ¬ ("group_id" = "serial_numbers") := by decide
                      have hm3 : ¬ ("group_id" = "session_types") := by decide
                      simp [applyEdit, hm, hm2, hm3] at ha
                      subst ha
                      rw [applyEdit_groupid_stable yload w hw]
                    · simp [applyEdit, h1, h2, h3, hk] at ha
                      subst ha
                      rcases applyEdit_assign_stable yload k w hw hk with hc | hc <;>
                        simp [hc]

theorem entry_idem_leaf (yload sess : String → Option ConfigValue) (base : List String)
    (k : String) (ov : ConfigValue) (hov : ov.isMap = false)
    (hsess2 : ∀ w, sess (joinKey (base ++ [k])) = some w → w.isMap = false) :
    (entryOut yload sess base k ((entryOut yload sess base k ov).1)).1
      = (entryOut yload sess base k ov).1 := by
  have h1 : entryOut yload sess base k ov = leafOut yload sess (base ++ [k]) k ov := by
    rw [entryOut_eq]
    simp [hov]
  have hnm : ((leafOut yload sess (base ++ [k]) k ov).1).isMap = false :=
    leafOut_fst_nonmap yload sess (base ++ [k]) k ov hov hsess2
  have h2 : entryOut yload sess base k ((leafOut yload sess (base ++ [k]) k ov).1)
      = leafOut yload sess (base ++ [k]) k ((leafOut yload sess (base ++ [k]) k ov).1) := by
    rw [entryOut_eq]
    simp [hnm]
  rw [h1, h2]
  exact leafOut_fst_idem yload sess (base ++ [k]) k ov hov hsess2

theorem idemEntries_aux (yload sess : String → Option ConfigValue) (N : Nat)
    (hsess : ∀ k2 w, sess k2 = some w → w.isMap = false)
    (ihv : ∀ v2, sizeOf v2 < N → ∀ base2 : List String,
        (build_updated_settings yload sess base2
            (build_updated_settings yload sess base2 v2).1).1
          = (build_updated_settings yload sess base2 v2).1) :
    ∀ es : List (String × ConfigValue), (∀ q ∈ es, sizeOf q.2 < N) →
      ∀ base : List String,
        (buildEntries yload sess base (buildEntries yload sess base es).1).1
          = (buildEntries yload sess base es).1 := by
  intro es
  induction es with
  | nil =>
      intro _ base
      rw [buildEntries_nil, buildEntries_nil]
  | cons hd tl ihes =>
      rcases hd with ⟨k, ov⟩
      intro hsz base
      have htl := ihes (fun q hq => hsz q (List.mem_cons_of_mem _ hq)) base
      have hhead : (entryOut yload sess base k ((entryOut yload sess base k ov).1)).1
          = (entryOut yload sess base k ov).1 := by
        cases ov
        case map es2 =>
          have hb := ihv (.map es2) (hsz (k, .map es2) (List.mem_cons_self _ _)) (base ++ [k])
          have hform : entryOut yload sess base k (.map es2)
              = build_updated_settings yload sess (base ++ [k]) (.map es2) := by
            rw [entryOut_eq]
            simp [ConfigValue.isMap]
          rw [hform]
          have hmapfst : (build_updated_settings yload sess (base ++ [k]) (.map es2)).1
              = .map (buildEntries yload sess (base ++ [k]) es2).1 := by
            rw [build_map]
          rw [hmapfst]
          have hform2 : entryOut yload sess base k
                (.map (buildEntries yload sess (base ++ [k]) es2).1)
              = build_updated_settings yload sess (base ++ [k])
                  (.map (buildEntries yload sess (base ++ [k]) es2).1) := by
            rw [entryOut_eq]
            simp [ConfigValue.isMap]
          rw [hform2]
          rw [hmapfst] at hb
          exact hb
        case null =>
          exact entry_idem_leaf yload sess base k .null rfl (fun w h => hsess _ w h)
        case bool b =>
          exact entry_idem_leaf yload sess base k (.bool b) rfl (fun w h => hsess _ w h)
        case int n =>
          exact entry_idem_leaf yload sess base k (.int n) rfl (fun w h => hsess _ w h)
        case float q =>
          exact entry_idem_leaf yload sess base k (.float q) rfl (fun w h => hsess _ w h)
        case str s =>
          exact entry_idem_leaf yload sess base k (.str s) rfl (fun w h => hsess _ w h)
        case list items =>
          exact entry_idem_leaf yload sess base k (.list items) rfl (fun w h => hsess _ w h)
      rw [buildEntries_cons, buildEntries_cons]
      simp [hhead, htl]

theorem idem_fuel (yload sess : String → Option ConfigValue)
    (hsess : ∀ k2 w, sess k2 = some w → w.isMap = false) :
    ∀ (N : Nat) (v : ConfigValue), sizeOf v < N → ∀ base : List String,
      (build_updated_settings yload sess base
          (build_updated_settings yload sess base v).1).1
        = (build_updated_settings yload sess base v).1 := by
  intro N
  induction N with
  | zero =>
      intro v hv
      exact absurd hv (Nat.not_lt_zero _)
  | succ N ih =>
      intro v hv base
      cases v with
      | map es =>
          have hms : sizeOf (ConfigValue.map es) = 1 + sizeOf es := by simp
          have hes := idemEntries_aux yload sess N hsess ih es
            (fun q hq => by have := sizeOf_val_lt_entries hq; omega) base
          rw [build_map, build_map]
          simp [hes]
      | null => simp [build_nonmap yload sess base .null rfl]
      | bool b => simp [build_nonmap yload sess base (.bool b) rfl]
      | int n => simp [build_nonmap yload sess base (.int n) rfl]
      | float q => simp [build_nonmap yload sess base (.float q) rfl]
      | str s => simp [build_nonmap yload sess base (.str s) rfl]
      | list items => simp [build_nonmap yload sess base (.list items) rfl]

/-- C9 counterexample: with an edit store holding a dict value (which
st.session_state can hold, as the page itself stores dicts there), the
first pass replaces a list leaf by that dict via the fallback branch;
the second pass then recurses into the new dict and applies a deeper
edit, so applying the walk twice differs from applying it once. -/
theorem c9_idempotence_counterexample :
    applyFields (fun _ => none)
        (fun k => if k = "foo" then some (.map [("a", .int 1)])
          else if k = "foo_a" then some (.str "9") else none)
        (.map [("foo", .list [])])
      = .map [("foo", .map [("a", .int 1)])] ∧
    applyFields (fun _ => none)
        (fun k => if k = "foo" then some (.map [("a", .int 1)])
          else if k = "foo_a" then some (.str "9") else none)
        (applyFields (fun _ => none)
          (fun k => if k = "foo" then some (.map [("a", .int 1)])
            else if k = "foo_a" then some (.str "9") else none)
          (.map [("foo", .list [])]))
      = .map [("foo", .map [("a", .int 9)])] ∧
    ConfigValue.map [("foo", ConfigValue.map [("a", ConfigValue.int 9)])]
      ≠ .map [("foo", .map [("a", .int 1)])] :=
  ⟨rfl, rfl, by simp⟩

/-- C9 (amended): the reverse walk is idempotent for every edit store
none of whose values is a Map: applying the walk twice with the same
edit set yields the same document as applying it once. -/
theorem c9_idempotent_without_map_edits (yload sess : String → Option ConfigValue)
    (T : ConfigValue) (hsess : ∀ k w, sess k = some w → w.isMap = false) :
    applyFields yload sess (applyFields yload sess T) = applyFields yload sess T := by
  unfold applyFields
  exact idem_fuel yload sess hsess (sizeOf T + 1) T (Nat.lt_succ_self _) []

/-- Witness for C9 (amended): an edit store binding every widget key to
the string 5 edits both leaves, and a second application changes
nothing. -/
theorem c9_idempotent_without_map_edits_witness :
    applyFields (fun _ => none) (fun _ => some (.str "5"))
        (.map [("a", .int 1), ("b", .map [("c", .int 2)])])
      = .map [("a", .int 5), ("b", .map [("c", .int 5)])] ∧
    applyFields (fun _ => none) (fun _ => some (.str "5"))
        (applyFields (fun _ => none) (fun _ => some (.str "5"))
          (.map [("a", .int 1), ("b", .map [("c", .int 2)])]))
      = applyFields (fun _ => none) (fun _ => some (.str "5"))
          (.map [("a", .int 1), ("b", .map [("c", .int 2)])]) :=
  ⟨rfl,
   c9_idempotent_without_map_edits (fun _ => none) (fun _ => some (.str "5"))
     (.map [("a", .int 1), ("b", .map [("c", .int 2)])])
     (fun k w h => by injection h with h2; rw [← h2]; rfl)⟩

end NLBot
